import Mathlib

/-!
# Shallow embedding of the acme CSV-import service core

Definitions are translated from the Python sources under `src/server/app`:
the import-job repository (`services/import_service.py`), the product
repository (`services/product_repository.py`), the CSV validator
(`services/csv_validator.py`), the Redis progress store
(`core/redis_manager.py`) and the Celery worker tasks
(`tasks/import_tasks.py`, `tasks/bulk_delete_tasks.py`).

Database rows are modeled as Lean structures restricted to the columns the
properties touch; timestamps are abstract `Nat` ticks; the Redis hash is an
association list from field names to raw strings; the side effects a worker
performs are modeled as an explicit event trace.
-/

set_option maxHeartbeats 1000000

namespace Acme

/-- Lifecycle states of a job (`app/models/import_job.py`, `ImportStatus`). -/
inductive ImportStatus where
  | queued
  | uploading
  | parsing
  | importing
  | done
  | failed
deriving DecidableEq, Repr

/-- Job kinds (`app/models/import_job.py`, `JobType`): `IMPORT = "import"`
and `BULK_DELETE = "bulk_delete"`. -/
inductive JobType where
  | csvImport
  | bulkDelete
deriving DecidableEq, Repr

/-- One row of the `import_jobs` table (`app/models/import_job.py`,
`ImportJob`), restricted to the columns the claims touch; the `id` primary
key is left implicit (theorems quantify over one job record) and timestamps
are abstract ticks. -/
structure ImportJob where
  filename : String
  jobType : JobType
  status : ImportStatus
  totalRows : Option Nat
  processedRows : Nat
  errorMessage : Option String
  createdAt : Nat
  updatedAt : Nat
deriving DecidableEq, Repr

namespace ImportRepository

/-- Translation of `ImportRepository.update_status` (`services/import_service.py` lines
56-88) applied to a job record that was found: the status is assigned
unconditionally, `processed_rows` and `error_message` are overwritten only
when the optional argument is not `None`, and `updated_at` is refreshed.
(The not-found path of the source returns `None` and mutates nothing; the
claims quantify over existing jobs.) -/
def update_status (job : ImportJob) (status : ImportStatus)
    (processedRows : Option Nat) (errorMessage : Option String)
    (now : Nat) : ImportJob :=
  { job with
    status := status
    processedRows := processedRows.getD job.processedRows
    errorMessage := errorMessage.or job.errorMessage
    updatedAt := now }

/-- Translation of `ImportRepository.increment_processed_rows` (`services/import_service.py`
lines 90-108) on a job record that was found: adds `count` to the counter and
refreshes `updated_at`, with no look at the current status. -/
def increment_processed_rows (job : ImportJob) (count : Nat) (now : Nat) :
    ImportJob :=
  { job with
    processedRows := job.processedRows + count
    updatedAt := now }

end ImportRepository

/-- Observable side effects of the worker tasks, in program order:
database writes through `ImportRepository.update_status`, Redis progress
writes (`ProgressTracker.update` / `BulkDeleteProgressTracker.update`,
which both store a snapshot and publish to the live channel), webhook
fan-out (`WebhookService.publish_event`), temp-file deletion, and
re-raising for the broker retry policy. -/
inductive Ev where
  | db (status : ImportStatus) (processed : Option Nat) (err : Option String)
  | pub (status : String) (processed : Nat) (err : Option String) (stage : Option String)
  | hook (event : String) (count : Nat)
  | delFile
  | reraise
deriving DecidableEq, Repr

namespace ImportTasks

/-- Value of max_retries in the `process_csv_import` task
decorator (`tasks/import_tasks.py` line 159). -/
def maxRetries : Nat := 3

/-- The `except Exception` branch of `process_csv_import`
(`tasks/import_tasks.py` lines 377-433) as the ordered list of side effects
it performs. `retries` is `self.request.retries`, `maxR` is
`self.max_retries`; `ekind`/`edetail` are `type(e).__name__` and `str(e)`;
`processed` is the local `processed_rows` (`none` when the failure happened
before its assignment, in which case the source publishes `0`).
On the final attempt (`retries >= max_retries`) the source calls
`_update_job_failed` (an `update_status` to FAILED carrying the error
message, lines 456-472), publishes the `import.failed` webhook event with
the processed count, and unlinks the temp file; in every case it then
force-writes a Redis progress update (status `"failed"` only on the final
attempt, else `"importing"`) and re-raises. -/
def exceptBranch (retries maxR : Nat) (ekind edetail : String)
    (processed : Option Nat) : List Ev :=
  let errorMessage := ekind ++ ": " ++ edetail
  (if maxR ≤ retries then
    [Ev.db ImportStatus.failed Option.none (some errorMessage),
     Ev.hook "import.failed" (processed.getD 0),
     Ev.delFile]
  else []) ++
  [Ev.pub (if maxR ≤ retries then "failed" else "importing") (processed.getD 0)
      (some errorMessage) Option.none,
   Ev.reraise]

end ImportTasks

/-- Python `str.strip()` on the character list: drop leading and trailing
whitespace. -/
def stripChars (cs : List Char) : List Char :=
  ((cs.dropWhile Char.isWhitespace).reverse.dropWhile Char.isWhitespace).reverse

/-- Model of Python `str.strip()` (for the ASCII inputs of this system it
agrees with Lean's `String.trim`, which is not kernel-reducible). -/
def pyStrip (s : String) : String := String.mk (stripChars s.data)

/-- Model of Python `str.lower()`: character-wise lowercasing. -/
def pyLower (s : String) : String := String.mk (s.data.map Char.toLower)

/-- The pydantic `ProductCreate` payload (`schemas/product.py`): one incoming
product row of a batch. The schema-level whitespace strip on `sku`/`name` is
not assumed here; `batch_upsert` re-strips the sku itself, as the source
does. -/
structure ProductCreate where
  sku : String
  name : String
  description : Option String
  active : Bool
deriving DecidableEq, Repr

/-- One row of the `products` table (`app/models/product.py`), restricted to
the columns the claims touch; the serial `id` is left implicit and
`created_at` is an abstract tick. -/
structure ProductRow where
  sku : String
  name : String
  description : Option String
  active : Bool
  createdAt : Nat
deriving DecidableEq, Repr

/-- The per-source-row values of the INSERT statement built by
`batch_upsert`: the dict stored into `seen_skus` (lines 53-58), whose sku is
already stripped. -/
structure UpsertValues where
  sku : String
  name : String
  description : Option String
  active : Bool
deriving DecidableEq, Repr

namespace ProductRepository

/-- Conflict key of a stored row: `lower(sku)`, the expression of the unique
index that `ON CONFLICT` targets. -/
def rowKey (r : ProductRow) : String := pyLower r.sku

/-- Deduplication key of a source row: `product.sku.strip().lower()`
(line 52). -/
def srcKey (p : ProductCreate) : String := pyLower (pyStrip p.sku)

/-- A source row survives the guard of line 50: its sku is non-empty after
stripping. -/
def keptRow (p : ProductCreate) : Bool := pyStrip p.sku != ""

/-- The `seen_skus` dict value built for one kept source row (lines 53-58). -/
def toValues (p : ProductCreate) : UpsertValues :=
  { sku := pyStrip p.sku
    name := p.name
    description := p.description
    active := p.active }

/-- Key of a `seen_skus` value: lower of its (already stripped) sku. -/
def valKey (v : UpsertValues) : String := pyLower v.sku

/-- Python dict assignment `seen_skus[sku_key] = {...}` on an
insertion-ordered mapping: replace in place when the key is present, append
otherwise. -/
def dictInsert (acc : List UpsertValues) (v : UpsertValues) : List UpsertValues :=
  if acc.any (fun w => valKey w == valKey v) then
    acc.map (fun w => if valKey w == valKey v then v else w)
  else acc ++ [v]

/-- The dedup loop of `batch_upsert` (lines 46-58): fold the batch, skipping
whitespace-only skus; the last occurrence of a key wins. -/
def dedupeBatch (products : List ProductCreate) : List UpsertValues :=
  products.foldl (fun acc p => if keptRow p then dictInsert acc (toValues p) else acc) []

/-- The `ON CONFLICT (lower(sku)) DO UPDATE` action for a conflicting stored
row: overwrite `name`, `description`, `active`; `id`, `sku` and `created_at`
are not in the update set (lines 66-77). -/
def updateConflict (r : ProductRow) (v : UpsertValues) : ProductRow :=
  { r with name := v.name, description := v.description, active := v.active }

/-- The plain-INSERT action for a non-conflicting source row: a fresh row
whose `created_at` is the statement time. -/
def insertFresh (now : Nat) (v : UpsertValues) : ProductRow :=
  { sku := v.sku
    name := v.name
    description := v.description
    active := v.active
    createdAt := now }

/-- Effect of one source row of the single INSERT .. ON CONFLICT statement on
the table: update the rows matching the conflict key, else append a fresh
row. -/
def applyValues (now : Nat) (t : List ProductRow) (v : UpsertValues) : List ProductRow :=
  if t.any (fun r => rowKey r == valKey v) then
    t.map (fun r => if rowKey r == valKey v then updateConflict r v else r)
  else t ++ [insertFresh now v]

/-- Failure of the single-statement execution. -/
inductive UpsertError where
  | emptyValues
deriving DecidableEq, Repr

/-- Translation of `ProductRepository.batch_upsert` (`services/product_repository.py` lines
25-82). An empty batch returns 0 before touching the database (lines 40-41);
otherwise the batch is deduplicated into `seen_skus` and a single
INSERT .. ON CONFLICT statement over those values runs in one transaction.
When every row of a non-empty batch is skipped, the statement is built over
an empty values list, which SQLAlchemy/PostgreSQL reject: this is modeled as
the statement-level error. The source rows of the statement have pairwise
distinct conflict keys, so the statement equals the left fold of the
per-row effect; `rowcount` counts the source rows (each inserts or
updates exactly one row). -/
def batch_upsert (now : Nat) (t : List ProductRow) (products : List ProductCreate) :
    Except UpsertError (List ProductRow × Nat) :=
  if products.isEmpty then Except.ok (t, 0)
  else
    let vals := dedupeBatch products
    if vals.isEmpty then Except.error UpsertError.emptyValues
    else Except.ok (vals.foldl (applyValues now) t, vals.length)

/-- First stored row matching a conflict key. -/
def findByKey (t : List ProductRow) (k : String) : Option ProductRow :=
  t.find? (fun r => rowKey r == k)

/-- Number of stored rows matching a conflict key. -/
def countKey (t : List ProductRow) (k : String) : Nat :=
  (t.filter (fun r => rowKey r == k)).length

/-- The table's uniqueness invariant: the unique index on `lower(sku)`. -/
def keysNodup (t : List ProductRow) : Prop := (t.map rowKey).Nodup

/-- Last batch row that survives the skip guard and has dedup key `k`
(last-write-wins reference point). -/
def lastKept (products : List ProductCreate) (k : String) : Option ProductCreate :=
  products.reverse.find? (fun p => keptRow p && (srcKey p == k))

end ProductRepository

/-- Python / JSON scalar values that can appear as progress-snapshot field
values. Numbers are modeled by integers: the snapshot's numeric claims are
about counts (`processed_rows`, `total_rows`); float formatting is outside
the model. -/
inductive PyVal where
  | int (i : Int)
  | bool (b : Bool)
  | null
  | str (s : String)
deriving DecidableEq, Repr

/-- Decimal digits of a natural number, most significant first
(fuel-recursive so that the kernel can evaluate it; `natToDigits` supplies
enough fuel). -/
def natDigitsGo : Nat → Nat → List Char
  | 0, _ => []
  | fuel + 1, n =>
    if n < 10 then [Nat.digitChar n]
    else natDigitsGo fuel (n / 10) ++ [Nat.digitChar (n % 10)]

/-- Decimal numeral of a natural number. -/
def natToDigits (n : Nat) : List Char := natDigitsGo (n + 1) n

/-- Decimal numeral of an integer, as Python `str()` and `json.dumps` both
print it. -/
def intToChars (i : Int) : List Char :=
  match i with
  | Int.ofNat n => natToDigits n
  | Int.negSucc n => '-' :: natToDigits (n + 1)

/-- Numeric value of a decimal digit character. -/
def charDigit (c : Char) : Option Nat :=
  if '0' ≤ c ∧ c ≤ '9' then some (c.toNat - Char.toNat '0') else Option.none

/-- Parse a non-empty all-digit character list as a natural number (the
unsigned-integer grammar accepted by `json.loads`; the sign is handled by
`parseIntChars`). -/
def parseNatChars (cs : List Char) : Option Nat :=
  if cs.isEmpty then Option.none
  else cs.foldl (fun acc c =>
    match acc, charDigit c with
    | some n, some d => some (n * 10 + d)
    | _, _ => Option.none) (some 0)

/-- Parse a decimal integer with optional leading minus. -/
def parseIntChars (cs : List Char) : Option Int :=
  match cs with
  | '-' :: rest => (parseNatChars rest).map (fun n => -(n : Int))
  | _ => (parseNatChars cs).map (fun n => (n : Int))

/-- Model of `json.dumps` restricted to the scalar values of the model; string
escaping is not modeled (no theorem evaluates it on strings containing
quotes or backslashes). -/
def jsonDumps (v : PyVal) : String :=
  match v with
  | PyVal.int i => String.mk (intToChars i)
  | PyVal.bool b => if b then "true" else "false"
  | PyVal.null => "null"
  | PyVal.str s => "\"" ++ s ++ "\""

/-- Model of `json.loads` restricted to the scalar grammar the snapshot fields use:
decimal integers, `true` / `false` / `null`, and simple escape-free string
literals; everything else fails (`none`), which the store maps to its
raw-string fallback. -/
def jsonLoads (s : String) : Option PyVal :=
  match parseIntChars s.data with
  | some i => some (PyVal.int i)
  | Option.none =>
    if s = "true" then some (PyVal.bool true)
    else if s = "false" then some (PyVal.bool false)
    else if s = "null" then some PyVal.null
    else
      match s.data with
      | '"' :: rest =>
        if rest.getLast? == some '"'
            && rest.dropLast.all (fun c => c != '"' && c != '\\') then
          some (PyVal.str (String.mk rest.dropLast))
        else Option.none
      | _ => Option.none

/-- Python `str()` on the scalar values: the serialization the worker-side
trackers actually apply to every payload field
(`str(v)`, import_tasks.py line 105 / bulk_delete_tasks.py line 102). -/
def pyStr (v : PyVal) : String :=
  match v with
  | PyVal.int i => String.mk (intToChars i)
  | PyVal.bool b => if b then "True" else "False"
  | PyVal.null => "None"
  | PyVal.str s => s

/-- Redis `HSET key field value` on one job's hash, modeled as an
insertion-ordered field/value association list. -/
def hset (h : List (String × String)) (k v : String) : List (String × String) :=
  if h.any (fun kv => kv.1 == k) then
    h.map (fun kv => if kv.1 == k then (k, v) else kv)
  else h ++ [(k, v)]

/-- Redis `HGET`. -/
def hget (h : List (String × String)) (k : String) : Option String :=
  (h.find? (fun kv => kv.1 == k)).map (fun kv => kv.2)

namespace ProgressManager

/-- Translation of `ProgressManager._encode_value` (`core/redis_manager.py` lines 117-118):
`json.dumps(value)`. -/
def encode_value (v : PyVal) : String := jsonDumps v

/-- Translation of `ProgressManager._decode_value` (lines 120-126): `json.loads`, with the
single best-effort fallback to the raw string when decoding fails. -/
def decode_value (s : String) : PyVal := (jsonLoads s).getD (PyVal.str s)

/-- Storing one field of `set_progress` (lines 68-84): the encoded value
goes into the job's hash. -/
def putField (h : List (String × String)) (k : String) (v : PyVal) :
    List (String × String) := hset h k (encode_value v)

/-- Reading one field of `get_progress` (lines 86-95): the raw hash value is
decoded with the fallback. -/
def getField (h : List (String × String)) (k : String) : Option PyVal :=
  (hget h k).map decode_value

end ProgressManager

namespace ImportTasks

/-- Storing one payload field of `ProgressTracker.update`
(`tasks/import_tasks.py` lines 101-107): the hash value is `str(v)`, not a
JSON encoding. -/
def trackerPutField (h : List (String × String)) (k : String) (v : PyVal) :
    List (String × String) := hset h k (pyStr v)

end ImportTasks

/-- Round-half-to-even of a rational, the rounding Python's `round` uses
(the model works over exact rationals; binary-float artifacts of the source
are outside it). -/
def roundHalfEven (x : ℚ) : Int :=
  if x - (⌊x⌋ : ℚ) < 1/2 then ⌊x⌋
  else if 1/2 < x - (⌊x⌋ : ℚ) then ⌊x⌋ + 1
  else if Even ⌊x⌋ then ⌊x⌋ else ⌊x⌋ + 1

/-- Python `round(x, 2)`. -/
def pyRound2 (x : ℚ) : ℚ := (roundHalfEven (x * 100) : ℚ) / 100

namespace ImportTasks

/-- The `progress` payload field of `ProgressTracker.update`
(`tasks/import_tasks.py` lines 84-92):
`progress_pct = processed / total * 100 if total > 0 else 0`, then
`round(progress_pct, 2)`. The `Option` is the wire value: `some q` is a JSON
number, `none` would be JSON null — the source always emits a number. -/
def trackerProgress (processed total : Nat) : Option ℚ :=
  some (pyRound2 (if 0 < total then (processed : ℚ) / (total : ℚ) * 100 else 0))

end ImportTasks

/-- One streamed CSV data row, keyed by the known headers; `none` for
`description` / `active` models an absent column. An absent `sku` / `name`
cell behaves like the empty string in both consumers. -/
structure CsvRow where
  sku : String
  name : String
  description : Option String
  active : Option String
deriving DecidableEq, Repr

namespace CSVValidator

/-- The accepted true spellings of `_parse_bool`
(`services/csv_validator.py` line 205). -/
def trueValues : List String := ["true", "yes", "1", "t", "y"]

/-- The accepted false spellings of `_parse_bool` (line 207). -/
def falseValues : List String := ["false", "no", "0", "f", "n"]

/-- Translation of `CSVValidator._parse_bool` (lines 183-210) on a string cell; `none`
models the `ValueError` raised for any other value. -/
def parse_bool (value : String) : Option Bool :=
  if trueValues.contains (pyLower (pyStrip value)) then some true
  else if falseValues.contains (pyLower (pyStrip value)) then some false
  else Option.none

/-- The truncation marker appended when row validation halts (line 174). -/
def truncationMarker : String :=
  "Validation stopped after 10 errors. Please fix these issues and retry."

/-- Outcome of the per-row try-block of `_validate_sample_rows` (lines
150-179): pydantic field errors (ValidationError), the generic
`except Exception` branch (reached by `_parse_bool` raising on a bad
`active` cell before the pydantic model runs), or success. -/
inductive RowOutcome where
  | ok
  | fieldErrors (msgs : List String)
  | unexpectedError (msg : String)
deriving DecidableEq, Repr

/-- The `NonEmptyStr` constraint of `CSVProductRow` on one field
(`schemas/product.py` line 10): strip (the mode=before validator), then
require length in [1, 255]. The message text stands in for pydantic's. -/
def fieldCheck (field : String) (value : String) : List String :=
  if (pyStrip value).length = 0 then ["field " ++ field ++ ": value is empty"]
  else if 255 < (pyStrip value).length then ["field " ++ field ++ ": value is too long"]
  else []

/-- The pydantic `CSVProductRow(**row_data)` check on sku and name. -/
def fieldOutcomeOf (r : CsvRow) : RowOutcome :=
  if (fieldCheck "sku" r.sku ++ fieldCheck "name" r.name).isEmpty then RowOutcome.ok
  else RowOutcome.fieldErrors (fieldCheck "sku" r.sku ++ fieldCheck "name" r.name)

/-- The whole try-block for one row: a present `active` cell goes through
`_parse_bool` first (line 159), whose ValueError lands in the generic
handler (lines 178-179); otherwise the pydantic model validates sku/name. -/
def rowOutcome (r : CsvRow) : RowOutcome :=
  match r.active with
  | some v =>
    match parse_bool v with
    | Option.none =>
      RowOutcome.unexpectedError ("Unexpected error - Cannot parse " ++ v ++ " as boolean")
    | some _ => fieldOutcomeOf r
  | Option.none => fieldOutcomeOf r

/-- Value of SAMPLE_SIZE (line 31). -/
def sampleSize : Nat := 100

/-- The sampling loop of `_validate_sample_rows` (lines 146-181) over the
remaining budget of `islice(reader, sample_size)`: `rowNum` is the running
`rows_validated`; a ValidationError row extends the error list and, when
that list has reached 10 entries, appends the truncation marker and breaks;
a generic-exception row extends the list without that check. Returns the
errors, `rows_validated`, and the rows left unread in the reader. -/
def sampleLoop (budget rowNum : Nat) (errors : List String) (rows : List CsvRow) :
    List String × Nat × List CsvRow :=
  match budget, rows with
  | 0, rest => (errors, rowNum, rest)
  | _ + 1, [] => (errors, rowNum, [])
  | b + 1, r :: rest =>
    match rowOutcome r with
    | RowOutcome.ok => sampleLoop b (rowNum + 1) errors rest
    | RowOutcome.unexpectedError m =>
        sampleLoop b (rowNum + 1)
          (errors ++ ["Row " ++ toString (rowNum + 1) ++ ": " ++ m]) rest
    | RowOutcome.fieldErrors msgs =>
        if 10 ≤ (errors ++ msgs.map (fun m => "Row " ++ toString (rowNum + 1) ++ ", " ++ m)).length then
          ((errors ++ msgs.map (fun m => "Row " ++ toString (rowNum + 1) ++ ", " ++ m))
              ++ [truncationMarker], rowNum + 1, rest)
        else
          sampleLoop b (rowNum + 1)
            (errors ++ msgs.map (fun m => "Row " ++ toString (rowNum + 1) ++ ", " ++ m)) rest

/-- Translation of `_validate_sample_rows(reader, SAMPLE_SIZE)` as called by
`validate_file` (line 99). -/
def validate_sample_rows (rows : List CsvRow) : List String × Nat × List CsvRow :=
  sampleLoop sampleSize 0 [] rows

/-- The `total_rows` computation of `validate_file` (lines 104-106):
`rows_validated` plus a count of whatever the sampling left in the reader. -/
def totalRowsOf (rows : List CsvRow) : Nat :=
  (validate_sample_rows rows).2.1 + (validate_sample_rows rows).2.2.length

end CSVValidator

namespace ImportTasks

/-- The false-spelling tuple of `_parse_csv_row`
(`tasks/import_tasks.py` line 142). -/
def falseLiterals : List String := ["false", "no", "0", "f", "n"]

/-- The `active` coercion of `_parse_csv_row` (lines 139-143): default
`True`; a present truthy (non-empty) cell is stripped, lowercased and
compared against the false tuple only — any other value keeps `True`. -/
def workerActive (cell : Option String) : Bool :=
  match cell with
  | some v =>
    if v != "" then
      (if falseLiterals.contains (pyLower (pyStrip v)) then false else true)
    else true
  | Option.none => true

/-- Model of the pydantic `ProductCreate(...)` construction
(`schemas/product.py` lines 10-32): the mode=before validator strips sku and
name, then `NonEmptyStr` requires their length in [1, 255]; `description`
and `active` are unconstrained. `none` models the `ValidationError` the
constructor raises when a constraint fails. -/
def productCreateOf (sku name : String) (description : Option String)
    (active : Bool) : Option ProductCreate :=
  if (pyStrip sku).length = 0 ∨ 255 < (pyStrip sku).length
      ∨ (pyStrip name).length = 0 ∨ 255 < (pyStrip name).length then
    Option.none
  else some
    { sku := pyStrip sku
      name := pyStrip name
      description := description
      active := active }

/-- Translation of `_parse_csv_row` (lines 125-150): skip the row when sku or
name is falsy; otherwise build the candidate through `ProductCreate` with the
explicitly stripped sku/name, the empty-to-`None` description, and the
coerced active flag. A `none` result covers both the explicit skip (lines
134-136) and a `ValidationError` out of the constructor (e.g. a
whitespace-only or over-long sku/name): the caller's try/except around
`_parse_csv_row` (lines 255-263) skips the row in either case. -/
def parse_csv_row (row : CsvRow) : Option ProductCreate :=
  if row.sku == "" || row.name == "" then Option.none
  else productCreateOf (pyStrip row.sku) (pyStrip row.name)
    (if pyStrip (row.description.getD "") == "" then Option.none
     else some (pyStrip (row.description.getD "")))
    (workerActive row.active)

end ImportTasks

/-- The database state a bulk-delete work item sees: its job row and the
products table. -/
structure BulkWorld where
  job : ImportJob
  products : List ProductRow
deriving DecidableEq, Repr

namespace BulkDeleteTasks

/-- Value of BATCH_SIZE (`tasks/bulk_delete_tasks.py` line 27). -/
def batchSize : Nat := 10000

/-- The `progress` payload field of `BulkDeleteProgressTracker.update`
(`tasks/bulk_delete_tasks.py` lines 81-89), same formula as the ingest
tracker. -/
def trackerProgress (deleted total : Nat) : Option ℚ :=
  some (pyRound2 (if 0 < total then (deleted : ℚ) / (total : ℚ) * 100 else 0))

/-- The deletion loop of `bulk_delete_all_products_task` (lines 259-301):
while the counter is below the total, fetch up to 10k ids (modeled as the
head of the table — the source SELECT has no ORDER BY), delete them in one
transaction, write the counter through `update_status`, and publish; breaks
when the fetch comes back empty. Returns events, job, remaining table and
the final deleted count. -/
def deleteLoop (now : Nat) (job : ImportJob) (products : List ProductRow)
    (deleted batchNum total : Nat) : List Ev × ImportJob × List ProductRow × Nat :=
  if deleted < total then
    if products.isEmpty then ([], job, products, deleted)
    else
      let deleted2 := deleted + (products.take batchSize).length
      let job2 := ImportRepository.update_status job ImportStatus.importing
        (some deleted2) Option.none now
      let tail := deleteLoop now job2 (products.drop batchSize) deleted2 (batchNum + 1) total
      (Ev.db ImportStatus.importing (some deleted2) Option.none ::
        Ev.pub "deleting" deleted2 Option.none (some ("batch_" ++ toString (batchNum + 1))) ::
        tail.1,
       tail.2)
  else ([], job, products, deleted)
termination_by products.length
decreasing_by
  simp only [List.length_drop]
  refine Nat.sub_lt ?_ (by decide)
  cases hp : products with
  | nil => simp [hp] at *
  | cons a l => simp [hp]

/-- Translation of `bulk_delete_all_products_task` (`tasks/bulk_delete_tasks.py` lines
132-344) on a found job, as its event trace plus final state: a wrong-kind
job returns without raising or writing (bad message); otherwise the job is
advanced to PARSING with a "preparing" snapshot; a zero-product table jumps
straight to DONE with `processed_rows=0` and the `product.bulk_deleted`
fan-out (lines 209-245); otherwise IMPORTING, the batched loop, DONE and
the fan-out with the final count. -/
def bulkDeleteRun (now : Nat) (w : BulkWorld) : List Ev × BulkWorld :=
  if w.job.jobType != JobType.bulkDelete then ([], w)
  else
    let j1 := ImportRepository.update_status w.job ImportStatus.parsing
      Option.none Option.none now
    if w.products.length = 0 then
      ([Ev.db ImportStatus.parsing Option.none Option.none,
        Ev.pub "preparing" 0 Option.none (some "counting"),
        Ev.db ImportStatus.done (some 0) Option.none,
        Ev.pub "done" 0 Option.none (some "completed"),
        Ev.hook "product.bulk_deleted" 0],
       { job := ImportRepository.update_status j1 ImportStatus.done (some 0)
           Option.none now,
         products := w.products })
    else
      let j2 := ImportRepository.update_status j1 ImportStatus.importing
        Option.none Option.none now
      let loopRes := deleteLoop now j2 w.products 0 0 w.products.length
      ([Ev.db ImportStatus.parsing Option.none Option.none,
        Ev.pub "preparing" 0 Option.none (some "counting"),
        Ev.db ImportStatus.importing Option.none Option.none,
        Ev.pub "deleting" 0 Option.none (some "batch_0")]
          ++ loopRes.1
          ++ [Ev.db ImportStatus.done (some loopRes.2.2.2) Option.none,
              Ev.pub "done" loopRes.2.2.2 Option.none (some "completed"),
              Ev.hook "product.bulk_deleted" loopRes.2.2.2],
       { job := ImportRepository.update_status loopRes.2.1 ImportStatus.done
           (some loopRes.2.2.2) Option.none now,
         products := loopRes.2.2.1 })

end BulkDeleteTasks

/-- Recognizer for a database write carrying status IMPORTING (used to show
the empty-table bulk delete never passes through that status). -/
def isImportingDb : Ev → Bool
  | Ev.db ImportStatus.importing _ _ => true
  | _ => false

/-- Fixture: a finished job record used to exhibit the missing regression
check in `update_status`. -/
def doneJob : ImportJob :=
  { filename := "a.csv"
    jobType := JobType.csvImport
    status := ImportStatus.done
    totalRows := some 10
    processedRows := 10
    errorMessage := Option.none
    createdAt := 0
    updatedAt := 0 }

/-- Fixture: a one-row product table. -/
def prodTable0 : List ProductRow :=
  [{ sku := "sku-1", name := "A", description := Option.none, active := true,
     createdAt := 3 }]

/-- Fixture: a batch row whose sku differs from the stored one in case and
surrounding whitespace. -/
def batchRow0 : ProductCreate :=
  { sku := " SKU-1 ", name := "B", description := some "d", active := false }

/-- Fixture: a batch row with a whitespace-only sku (skipped by the guard). -/
def wsRow0 : ProductCreate :=
  { sku := "   ", name := "X", description := Option.none, active := true }

/-- Fixture: a batch with one kept and one skipped row. -/
def batch0 : List ProductCreate := [batchRow0, wsRow0]

/-- Fixture: a queued bulk-delete job. -/
def bulkJob0 : ImportJob :=
  { filename := ""
    jobType := JobType.bulkDelete
    status := ImportStatus.queued
    totalRows := Option.none
    processedRows := 0
    errorMessage := Option.none
    createdAt := 0
    updatedAt := 0 }

/-- Fixture: a bulk-delete work item over an empty product table. -/
def emptyBulkWorld : BulkWorld := { job := bulkJob0, products := [] }

/-- Fixture: a CSV row whose `active` cell is not coercible to a boolean
(it trips the generic exception branch of the validator). -/
def badActiveRow : CsvRow :=
  { sku := "s", name := "n", description := Option.none, active := some "x" }

/-- Fixture: eleven bad-active rows — eleven row-level errors with no
truncation. -/
def rows11 : List CsvRow := List.replicate 11 badActiveRow

/-- Fixture: a row failing both sku and name schema checks. -/
def badFieldRow : CsvRow :=
  { sku := "", name := "", description := Option.none, active := Option.none }

/-- Fixture: six double-error rows — the tenth error lands on row five and
halts the sampling. -/
def rows6 : List CsvRow := List.replicate 6 badFieldRow

end Acme

namespace Acme

/-- C1 counterexample: `update_status` performs no regression check. On a job
whose status is `done`, a call requesting the earlier lifecycle status
`queued` overwrites the stored status (the claim says it is left unchanged),
and `increment_processed_rows` still mutates the counter of a finished job. -/
theorem c1_counterexample :
    (ImportRepository.update_status doneJob ImportStatus.queued Option.none Option.none 1).status
        = ImportStatus.queued ∧
    (ImportRepository.update_status doneJob ImportStatus.queued Option.none Option.none 1).status
        ≠ ImportStatus.done ∧
    doneJob.status = ImportStatus.done ∧
    (ImportRepository.increment_processed_rows doneJob 5 1).processedRows = 15 := by
  refine ⟨rfl, ?_, rfl, rfl⟩
  decide

/-- C1 (amended): `ImportRepository.update_status` rejects nothing: every
call applies the requested status to the stored record unconditionally,
whatever the current status (including `done` and `failed`), and
`increment_processed_rows` always adds to `processed_rows`; the lifecycle
ordering is never consulted. -/
theorem c1_update_status_unconditional (j : ImportJob) (s : ImportStatus)
    (pr : Option Nat) (em : Option String) (now n : Nat) :
    (ImportRepository.update_status j s pr em now).status = s ∧
    (ImportRepository.increment_processed_rows j n now).processedRows
        = j.processedRows + n :=
  ⟨rfl, rfl⟩

/-- C10: `update_status` mutates exactly the status, `updated_at`, and the
optional fields that were supplied: `filename`, `job_type`, `total_rows` and
`created_at` are untouched; a `none` `processed_rows` keeps the counter; a
`none` `error_message` keeps a previously stored message (it is never
cleared), so a later transition to `done` without an error argument
preserves an earlier error message. -/
theorem c10_update_status_frame (j : ImportJob) (s : ImportStatus)
    (pr : Option Nat) (em : Option String) (now : Nat) :
    (ImportRepository.update_status j s pr em now).filename = j.filename ∧
    (ImportRepository.update_status j s pr em now).jobType = j.jobType ∧
    (ImportRepository.update_status j s pr em now).totalRows = j.totalRows ∧
    (ImportRepository.update_status j s pr em now).createdAt = j.createdAt ∧
    (ImportRepository.update_status j s pr em now).status = s ∧
    (ImportRepository.update_status j s pr em now).updatedAt = now ∧
    (ImportRepository.update_status j s pr em now).processedRows
        = pr.getD j.processedRows ∧
    (ImportRepository.update_status j s pr em now).errorMessage
        = em.or j.errorMessage ∧
    (ImportRepository.update_status j ImportStatus.done pr Option.none now).errorMessage
        = j.errorMessage :=
  ⟨rfl, rfl, rfl, rfl, rfl, rfl, rfl, rfl, rfl⟩

namespace ProductRepository

theorem find?_append_one {α : Type*} (l : List α) (x : α) (p : α → Bool) :
    (l ++ [x]).find? p = (l.find? p).or (if p x then some x else Option.none) := by
  induction l with
  | nil => cases h : p x <;> simp [List.find?, h]
  | cons a l ih =>
    cases h : p a <;> simp [List.find?, h, ih]

theorem valKey_toValues (p : ProductCreate) : valKey (toValues p) = srcKey p := rfl

theorem valKey_dictUpdate (v w : UpsertValues) :
    valKey (if valKey w == valKey v then v else w) = valKey w := by
  by_cases h : valKey w = valKey v <;> simp [h]

theorem dictInsert_find_self (acc : List UpsertValues) (v : UpsertValues) :
    (dictInsert acc v).find? (fun w => valKey w == valKey v) = some v := by
  induction acc with
  | nil => simp [dictInsert, List.find?]
  | cons w acc ih =>
    by_cases h : valKey w = valKey v
    · simp [dictInsert, List.any_cons, h, List.find?]
    · have hwv : (valKey w == valKey v) = false := by simp [h]
      by_cases hany : acc.any (fun x => valKey x == valKey v) = true
      · have : dictInsert (w :: acc) v
            = w :: acc.map (fun x => if valKey x == valKey v then v else x) := by
          simp [dictInsert, List.any_cons, hwv, hany, h]
        rw [this, List.find?_cons_of_neg _ (by simp [h])]
        have ih2 : (dictInsert acc v).find? (fun w => valKey w == valKey v) = some v := ih
        simpa [dictInsert, hany] using ih2
      · have hany2 : ((w :: acc).any fun x => valKey x == valKey v) = false := by
          simp only [List.any_cons, hwv, Bool.false_or]
          simpa using hany
        have : dictInsert (w :: acc) v = w :: (acc ++ [v]) := by
          simp [dictInsert, hany2]
        rw [this, List.find?_cons_of_neg _ (by simp [h])]
        have ih2 : (dictInsert acc v).find? (fun w => valKey w == valKey v) = some v := ih
        simpa [dictInsert, hany] using ih2

theorem find?_map_replaceKey (acc : List UpsertValues) (v : UpsertValues) (k : String)
    (hk : k ≠ valKey v) :
    (acc.map (fun x => if valKey x == valKey v then v else x)).find?
        (fun w => valKey w == k)
      = acc.find? (fun w => valKey w == k) := by
  induction acc with
  | nil => simp
  | cons w acc ih =>
    by_cases h : valKey w = valKey v
    · have h1 : (valKey w == valKey v) = true := beq_iff_eq.mpr h
      have h2 : ¬ ((fun w => valKey w == k) v = true) := by
        simp [Ne.symm hk]
      have h3 : ¬ ((fun w => valKey w == k) w = true) := by
        simp [h, Ne.symm hk]
      rw [List.map_cons, if_pos h1,
        List.find?_cons_of_neg (p := fun w => valKey w == k) _ h2,
        List.find?_cons_of_neg (p := fun w => valKey w == k) _ h3]
      exact ih
    · have h1 : ¬ ((valKey w == valKey v) = true) := by simp [h]
      rw [List.map_cons, if_neg h1]
      by_cases hwk : (fun x => valKey x == k) w = true
      · rw [List.find?_cons_of_pos (p := fun w => valKey w == k) _ hwk,
          List.find?_cons_of_pos (p := fun w => valKey w == k) _ hwk]
      · rw [List.find?_cons_of_neg (p := fun w => valKey w == k) _ hwk,
          List.find?_cons_of_neg (p := fun w => valKey w == k) _ hwk]
        exact ih

theorem dictInsert_find_ne (acc : List UpsertValues) (v : UpsertValues) (k : String)
    (hk : k ≠ valKey v) :
    (dictInsert acc v).find? (fun w => valKey w == k)
      = acc.find? (fun w => valKey w == k) := by
  unfold dictInsert
  by_cases hany : acc.any (fun w => valKey w == valKey v) = true
  · simp only [hany, if_true]
    exact find?_map_replaceKey acc v k hk
  · simp only [Bool.not_eq_true] at hany
    simp only [hany, Bool.false_eq_true, if_false]
    rw [find?_append_one]
    have : (valKey v == k) = false := beq_eq_false_iff_ne.mpr (Ne.symm hk)
    simp [this]

theorem dictInsert_keysNodup (acc : List UpsertValues) (v : UpsertValues)
    (h : (acc.map valKey).Nodup) : ((dictInsert acc v).map valKey).Nodup := by
  unfold dictInsert
  by_cases hany : acc.any (fun w => valKey w == valKey v) = true
  · simp only [hany, if_true, List.map_map]
    have : acc.map (valKey ∘ fun x => if valKey x == valKey v then v else x)
        = acc.map valKey :=
      List.map_congr_left (fun x _ => valKey_dictUpdate v x)
    rw [this]; exact h
  · simp only [Bool.not_eq_true] at hany
    simp only [hany, Bool.false_eq_true, if_false, List.map_append, List.map_cons,
      List.map_nil]
    have hnotin : valKey v ∉ acc.map valKey := by
      intro hmem
      rcases List.mem_map.mp hmem with ⟨w, hw, hkey⟩
      have : acc.any (fun w => valKey w == valKey v) = true :=
        List.any_eq_true.mpr ⟨w, hw, by simp [hkey]⟩
      simp [this] at hany
    simp [List.nodup_append, h, hnotin]

theorem dictInsert_mem (acc : List UpsertValues) (v x : UpsertValues)
    (hx : x ∈ dictInsert acc v) : x ∈ acc ∨ x = v := by
  unfold dictInsert at hx
  by_cases hany : acc.any (fun w => valKey w == valKey v) = true
  · simp only [hany, if_true] at hx
    rcases List.mem_map.mp hx with ⟨w, hw, hkey⟩
    by_cases h : valKey w = valKey v
    · right
      simp [h] at hkey
      exact hkey.symm
    · left
      simp [h] at hkey
      exact hkey ▸ hw
  · simp only [Bool.not_eq_true] at hany
    simp only [hany, Bool.false_eq_true, if_false, List.mem_append,
      List.mem_singleton] at hx
    exact hx

theorem dedupeFold_find (ps : List ProductCreate) (k : String) :
    ∀ acc : List UpsertValues,
      (ps.foldl (fun acc p => if keptRow p then dictInsert acc (toValues p) else acc)
          acc).find? (fun w => valKey w == k)
        = match lastKept ps k with
          | some p => some (toValues p)
          | Option.none => acc.find? (fun w => valKey w == k) := by
  induction ps with
  | nil => intro acc; simp [lastKept]
  | cons p rest ih =>
    intro acc
    have hrev : lastKept (p :: rest) k
        = (lastKept rest k).or
            (if (keptRow p && (srcKey p == k)) then some p else Option.none) := by
      simp only [lastKept, List.reverse_cons, find?_append_one]
    rw [List.foldl_cons, ih]
    cases hlast : lastKept rest k with
    | some q => simp [hrev, hlast]
    | none =>
      simp only [hrev, hlast, Option.or]
      by_cases hkept : keptRow p = true
      · by_cases hkey : srcKey p = k
        · have hcond : (keptRow p && (srcKey p == k)) = true := by simp [hkept, hkey]
          rw [if_pos hcond, if_pos hkept]
          have hfind := dictInsert_find_self acc (toValues p)
          rw [valKey_toValues, hkey] at hfind
          exact hfind
        · have hcond : ¬ ((keptRow p && (srcKey p == k)) = true) := by simp [hkey]
          rw [if_neg hcond, if_pos hkept]
          exact dictInsert_find_ne acc (toValues p) k
            (by rw [valKey_toValues]; exact Ne.symm hkey)
      · have hcond : ¬ ((keptRow p && (srcKey p == k)) = true) := by
          simp only [Bool.not_eq_true] at hkept
          simp [hkept]
        rw [if_neg hcond, if_neg hkept]

theorem dedupeBatch_find (ps : List ProductCreate) (k : String) :
    (dedupeBatch ps).find? (fun w => valKey w == k)
      = (lastKept ps k).map toValues := by
  rw [dedupeBatch, dedupeFold_find ps k []]
  cases lastKept ps k <;> simp

theorem dedupeFold_keysNodup (ps : List ProductCreate) :
    ∀ acc : List UpsertValues, (acc.map valKey).Nodup →
      ((ps.foldl (fun acc p => if keptRow p then dictInsert acc (toValues p) else acc)
          acc).map valKey).Nodup := by
  induction ps with
  | nil => intro acc h; simpa using h
  | cons p rest ih =>
    intro acc h
    rw [List.foldl_cons]
    by_cases hkept : keptRow p = true
    · simp only [hkept, if_true]
      exact ih _ (dictInsert_keysNodup acc (toValues p) h)
    · simp only [Bool.not_eq_true] at hkept
      simp only [hkept, Bool.false_eq_true, if_false]
      exact ih _ h

theorem dedupeBatch_keysNodup (ps : List ProductCreate) :
    ((dedupeBatch ps).map valKey).Nodup :=
  dedupeFold_keysNodup ps [] (by simp)

theorem dedupeFold_mem (ps : List ProductCreate) :
    ∀ (acc : List UpsertValues) (x : UpsertValues),
      x ∈ ps.foldl (fun acc p => if keptRow p then dictInsert acc (toValues p) else acc) acc →
      x ∈ acc ∨ ∃ p ∈ ps, keptRow p = true ∧ x = toValues p := by
  induction ps with
  | nil => intro acc x hx; left; simpa using hx
  | cons p rest ih =>
    intro acc x hx
    rw [List.foldl_cons] at hx
    by_cases hkept : keptRow p = true
    · simp only [hkept, if_true] at hx
      rcases ih _ x hx with hmem | ⟨q, hq, hkq, hxq⟩
      · rcases dictInsert_mem acc (toValues p) x hmem with h | h
        · exact Or.inl h
        · exact Or.inr ⟨p, List.mem_cons_self p rest, hkept, h⟩
      · exact Or.inr ⟨q, List.mem_cons_of_mem p hq, hkq, hxq⟩
    · simp only [Bool.not_eq_true] at hkept
      simp only [hkept, Bool.false_eq_true, if_false] at hx
      rcases ih _ x hx with hmem | ⟨q, hq, hkq, hxq⟩
      · exact Or.inl hmem
      · exact Or.inr ⟨q, List.mem_cons_of_mem p hq, hkq, hxq⟩

theorem dedupeBatch_mem (ps : List ProductCreate) (x : UpsertValues)
    (hx : x ∈ dedupeBatch ps) :
    ∃ p ∈ ps, keptRow p = true ∧ x = toValues p := by
  rcases dedupeFold_mem ps [] x hx with h | h
  · simp at h
  · exact h

theorem dedupeBatch_eq_nil (ps : List ProductCreate)
    (h : ∀ p ∈ ps, keptRow p = false) : dedupeBatch ps = [] := by
  induction ps with
  | nil => rfl
  | cons p rest ih =>
    have hp : keptRow p = false := h p (List.mem_cons_self p rest)
    simp only [dedupeBatch, List.foldl_cons, hp, Bool.false_eq_true, if_false]
    exact ih (fun q hq => h q (List.mem_cons_of_mem p hq))

theorem rowKey_updateConflict (r : ProductRow) (v : UpsertValues) :
    rowKey (updateConflict r v) = rowKey r := rfl

theorem rowKey_insertFresh (now : Nat) (v : UpsertValues) :
    rowKey (insertFresh now v) = valKey v := rfl

theorem find?_map_updateKey (t : List ProductRow) (v : UpsertValues)
    (hany : t.any (fun r => rowKey r == valKey v) = true) :
    (t.map (fun r => if rowKey r == valKey v then updateConflict r v else r)).find?
        (fun x => rowKey x == valKey v)
      = (t.find? (fun r => rowKey r == valKey v)).map (fun r => updateConflict r v) := by
  induction t with
  | nil => simp at hany
  | cons r t ih =>
    by_cases h : rowKey r = valKey v
    · have h1 : (rowKey r == valKey v) = true := beq_iff_eq.mpr h
      have h2 : ((fun x => rowKey x == valKey v) (updateConflict r v)) = true := by
        simpa [rowKey_updateConflict] using h1
      rw [List.map_cons, if_pos h1,
        List.find?_cons_of_pos (p := fun x => rowKey x == valKey v) _ h2,
        List.find?_cons_of_pos (p := fun x => rowKey x == valKey v) _ h1]
      rfl
    · have h1 : ¬ ((rowKey r == valKey v) = true) := by simp [h]
      have hany2 : t.any (fun r => rowKey r == valKey v) = true := by
        rcases List.any_eq_true.mp hany with ⟨x, hx, hpx⟩
        rcases List.mem_cons.mp hx with rfl | hxt
        · exact absurd hpx h1
        · exact List.any_eq_true.mpr ⟨x, hxt, hpx⟩
      rw [List.map_cons, if_neg h1,
        List.find?_cons_of_neg (p := fun x => rowKey x == valKey v) _ h1,
        List.find?_cons_of_neg (p := fun x => rowKey x == valKey v) _ h1]
      exact ih hany2

theorem applyValues_find_self (now : Nat) (t : List ProductRow) (v : UpsertValues) :
    findByKey (applyValues now t v) (valKey v)
      = some (match findByKey t (valKey v) with
          | some r => updateConflict r v
          | Option.none => insertFresh now v) := by
  unfold applyValues findByKey
  by_cases hany : t.any (fun r => rowKey r == valKey v) = true
  · simp only [hany, if_true]
    have hsome : (t.find? (fun r => rowKey r == valKey v)).isSome := by
      rw [List.find?_isSome]
      rcases List.any_eq_true.mp hany with ⟨x, hx, hpx⟩
      exact ⟨x, hx, hpx⟩
    rcases Option.isSome_iff_exists.mp hsome with ⟨r, hr⟩
    rw [find?_map_updateKey t v hany, hr]
    rfl
  · simp only [Bool.not_eq_true] at hany
    simp only [hany, Bool.false_eq_true, if_false]
    have hnone : t.find? (fun r => rowKey r == valKey v) = Option.none := by
      rw [List.find?_eq_none]
      intro x hx
      intro hpx
      have : t.any (fun r => rowKey r == valKey v) = true :=
        List.any_eq_true.mpr ⟨x, hx, hpx⟩
      simp [this] at hany
    rw [find?_append_one, hnone]
    have : ((fun r => rowKey r == valKey v) (insertFresh now v)) = true := by
      simp [rowKey_insertFresh]
    simp [this]

theorem applyValues_find_ne (now : Nat) (t : List ProductRow) (v : UpsertValues)
    (k : String) (hk : k ≠ valKey v) :
    findByKey (applyValues now t v) k = findByKey t k := by
  unfold applyValues findByKey
  by_cases hany : t.any (fun r => rowKey r == valKey v) = true
  · simp only [hany, if_true]
    clear hany
    induction t with
    | nil => simp
    | cons r t ih =>
      by_cases h : rowKey r = valKey v
      · have h1 : (rowKey r == valKey v) = true := beq_iff_eq.mpr h
        have h2 : ¬ ((fun x => rowKey x == k) (updateConflict r v) = true) := by
          simp [rowKey_updateConflict, h, Ne.symm hk]
        have h3 : ¬ ((fun x => rowKey x == k) r = true) := by
          simp [h, Ne.symm hk]
        rw [List.map_cons, if_pos h1,
          List.find?_cons_of_neg (p := fun x => rowKey x == k) _ h2,
          List.find?_cons_of_neg (p := fun x => rowKey x == k) _ h3]
        exact ih
      · have h1 : ¬ ((rowKey r == valKey v) = true) := by simp [h]
        rw [List.map_cons, if_neg h1]
        by_cases hrk : (fun x => rowKey x == k) r = true
        · rw [List.find?_cons_of_pos (p := fun x => rowKey x == k) _ hrk,
            List.find?_cons_of_pos (p := fun x => rowKey x == k) _ hrk]
        · rw [List.find?_cons_of_neg (p := fun x => rowKey x == k) _ hrk,
            List.find?_cons_of_neg (p := fun x => rowKey x == k) _ hrk]
          exact ih
  · simp only [Bool.not_eq_true] at hany
    simp only [hany, Bool.false_eq_true, if_false]
    rw [find?_append_one]
    have : ((fun r => rowKey r == k) (insertFresh now v)) = false := by
      simp only [rowKey_insertFresh]
      exact beq_eq_false_iff_ne.mpr (Ne.symm hk)
    simp [this]

theorem applyValues_keysNodup (now : Nat) (t : List ProductRow) (v : UpsertValues)
    (h : keysNodup t) : keysNodup (applyValues now t v) := by
  unfold keysNodup at *
  unfold applyValues
  by_cases hany : t.any (fun r => rowKey r == valKey v) = true
  · simp only [hany, if_true, List.map_map]
    have heq : t.map (rowKey ∘ fun r => if rowKey r == valKey v then updateConflict r v else r)
        = t.map rowKey := by
      refine List.map_congr_left (fun r _ => ?_)
      by_cases hr : rowKey r = valKey v <;> simp [hr, rowKey_updateConflict]
    rw [heq]; exact h
  · simp only [Bool.not_eq_true] at hany
    simp only [hany, Bool.false_eq_true, if_false, List.map_append, List.map_cons,
      List.map_nil, rowKey_insertFresh]
    have hnotin : valKey v ∉ t.map rowKey := by
      intro hmem
      rcases List.mem_map.mp hmem with ⟨r, hr, hkey⟩
      have : t.any (fun r => rowKey r == valKey v) = true :=
        List.any_eq_true.mpr ⟨r, hr, by simp [hkey]⟩
      simp [this] at hany
    simp [List.nodup_append, h, hnotin]

theorem foldApply_find_ne (now : Nat) (vals : List UpsertValues) (k : String) :
    ∀ t : List ProductRow, (∀ v ∈ vals, valKey v ≠ k) →
      findByKey (vals.foldl (applyValues now) t) k = findByKey t k := by
  induction vals with
  | nil => intro t _; rfl
  | cons v rest ih =>
    intro t hne
    rw [List.foldl_cons, ih _ (fun w hw => hne w (List.mem_cons_of_mem v hw))]
    exact applyValues_find_ne now t v k
      (fun h => hne v (List.mem_cons_self v rest) h.symm )

theorem foldApply_find_mem (now : Nat) (vals : List UpsertValues) (v : UpsertValues)
    (k : String) (hnd : (vals.map valKey).Nodup) (hv : v ∈ vals) (hk : valKey v = k) :
    ∀ t : List ProductRow,
      findByKey (vals.foldl (applyValues now) t) k
        = some (match findByKey t k with
            | some r => updateConflict r v
            | Option.none => insertFresh now v) := by
  induction vals with
  | nil => cases hv
  | cons w rest ih =>
    intro t
    rw [List.foldl_cons]
    rcases List.mem_cons.mp hv with rfl | hvrest
    · have hrest : ∀ x ∈ rest, valKey x ≠ k := by
        intro x hx hxk
        have : valKey v ∈ rest.map valKey := hk ▸ hxk ▸ List.mem_map_of_mem valKey hx
        simp only [List.map_cons, List.nodup_cons] at hnd
        exact hnd.1 (hk ▸ this)
      rw [foldApply_find_ne now rest k _ hrest, ← hk]
      exact applyValues_find_self now t v
    · have hwk : valKey w ≠ k := by
        intro hwkk
        have hmem : valKey v ∈ rest.map valKey := List.mem_map_of_mem valKey hvrest
        rw [hk, ← hwkk] at hmem
        simp only [List.map_cons, List.nodup_cons] at hnd
        exact hnd.1 hmem
      have hnd2 : (rest.map valKey).Nodup := by
        simp only [List.map_cons, List.nodup_cons] at hnd
        exact hnd.2
      rw [ih hnd2 hvrest _, applyValues_find_ne now t w k (Ne.symm hwk)]

theorem foldApply_keysNodup (now : Nat) (vals : List UpsertValues) :
    ∀ t : List ProductRow, keysNodup t → keysNodup (vals.foldl (applyValues now) t) := by
  induction vals with
  | nil => intro t h; exact h
  | cons v rest ih =>
    intro t h
    rw [List.foldl_cons]
    exact ih _ (applyValues_keysNodup now t v h)

theorem countKey_eq_zero (t : List ProductRow) (k : String)
    (h : k ∉ t.map rowKey) : countKey t k = 0 := by
  unfold countKey
  rw [List.length_eq_zero]
  rw [List.filter_eq_nil_iff]
  intro r hr
  intro hpr
  exact h (List.mem_map.mpr ⟨r, hr, (beq_iff_eq.mp hpr)⟩)

theorem countKey_eq_one (t : List ProductRow) (k : String) (r : ProductRow)
    (hnd : keysNodup t) (hfind : findByKey t k = some r) : countKey t k = 1 := by
  induction t with
  | nil => simp [findByKey, List.find?] at hfind
  | cons w t ih =>
    unfold keysNodup at hnd
    simp only [List.map_cons, List.nodup_cons] at hnd
    by_cases h : rowKey w = k
    · have h1 : (rowKey w == k) = true := beq_iff_eq.mpr h
      unfold countKey
      rw [List.filter_cons_of_pos (by simpa using h1)]
      have : countKey t k = 0 := countKey_eq_zero t k (h ▸ hnd.1)
      unfold countKey at this
      simp [this]
    · have h1 : ¬ ((rowKey w == k) = true) := by simp [h]
      unfold findByKey at hfind
      rw [List.find?_cons_of_neg (p := fun x => rowKey x == k) _ h1] at hfind
      unfold countKey
      rw [List.filter_cons_of_neg (by simpa using h1)]
      exact ih hnd.2 hfind

end ProductRepository

/-- C2: `batch_upsert` drops whitespace-sku rows, deduplicates the kept rows
by `lower(trim(sku))` with the last occurrence winning, and upserts so that
afterwards exactly one product row carries each kept key `k`: its `name`,
`description` and `active` equal those of the last kept input row with key
`k`; a pre-existing conflicting row keeps its `created_at` (and stored sku),
while a fresh row gets the statement time and the trimmed incoming sku.
Keys for which no kept input row exists (in particular the dropped
whitespace-sku rows) leave the table unchanged at that key. Hypotheses: the
table satisfies its unique-index invariant, and `p` is the last kept input
row with key `k`. -/
theorem c2_batch_upsert_spec (now : Nat) (t : List ProductRow)
    (ps : List ProductCreate) (k : String) (p : ProductCreate)
    (huniq : ProductRepository.keysNodup t)
    (hlast : ProductRepository.lastKept ps k = some p) :
    ∃ t' n, ProductRepository.batch_upsert now t ps = Except.ok (t', n) ∧
      ProductRepository.keysNodup t' ∧
      ProductRepository.countKey t' k = 1 ∧
      (∃ r, ProductRepository.findByKey t' k = some r ∧
        r.name = p.name ∧ r.description = p.description ∧ r.active = p.active ∧
        (∀ r0, ProductRepository.findByKey t k = some r0 →
          r.createdAt = r0.createdAt ∧ r.sku = r0.sku) ∧
        (ProductRepository.findByKey t k = Option.none →
          r.createdAt = now ∧ r.sku = pyStrip p.sku)) ∧
      (∀ k', ProductRepository.lastKept ps k' = Option.none →
        ProductRepository.findByKey t' k' = ProductRepository.findByKey t k') := by
  open ProductRepository in
  have hpred := List.find?_some hlast
  have hboth : keptRow p = true ∧ srcKey p = k := by simpa using hpred
  have hkept : keptRow p = true := hboth.1
  have hkey : srcKey p = k := hboth.2
  have hvfind : (dedupeBatch ps).find? (fun w => valKey w == k) = some (toValues p) := by
    rw [dedupeBatch_find, hlast]; rfl
  have hmemVals : toValues p ∈ dedupeBatch ps := List.mem_of_find?_eq_some hvfind
  have hpsne : ps ≠ [] := by
    intro h
    rw [h] at hlast
    simp [ProductRepository.lastKept] at hlast
  have h1 : ps.isEmpty = false := by
    cases ps
    · exact absurd rfl hpsne
    · rfl
  have h2 : (dedupeBatch ps).isEmpty = false := by
    cases hd : dedupeBatch ps
    · rw [hd] at hvfind; simp [List.find?] at hvfind
    · rfl
  have heq : ProductRepository.batch_upsert now t ps
      = Except.ok ((dedupeBatch ps).foldl (applyValues now) t, (dedupeBatch ps).length) := by
    simp only [ProductRepository.batch_upsert, h1, Bool.false_eq_true, if_false, h2]
  refine ⟨(dedupeBatch ps).foldl (applyValues now) t, (dedupeBatch ps).length,
    heq, ?_, ?_, ?_, ?_⟩
  · exact foldApply_keysNodup now (dedupeBatch ps) t huniq
  · have hfind := foldApply_find_mem now (dedupeBatch ps) (toValues p) k
      (dedupeBatch_keysNodup ps) hmemVals (by rw [valKey_toValues]; exact hkey) t
    exact countKey_eq_one _ k _ (foldApply_keysNodup now (dedupeBatch ps) t huniq) hfind
  · have hfind := foldApply_find_mem now (dedupeBatch ps) (toValues p) k
      (dedupeBatch_keysNodup ps) hmemVals (by rw [valKey_toValues]; exact hkey) t
    cases ht : findByKey t k with
    | some r0 =>
      rw [ht] at hfind
      refine ⟨updateConflict r0 (toValues p), hfind, rfl, rfl, rfl, ?_, ?_⟩
      · intro r1 hr1
        cases hr1
        exact ⟨rfl, rfl⟩
      · intro hnone
        cases hnone
    | none =>
      rw [ht] at hfind
      refine ⟨insertFresh now (toValues p), hfind, rfl, rfl, rfl, ?_, fun _ => ⟨rfl, rfl⟩⟩
      intro r1 hr1
      cases hr1
  · intro k' hk'
    apply foldApply_find_ne
    intro v hv hveq
    rcases dedupeBatch_mem ps v hv with ⟨q, hq, hkq, rfl⟩
    rw [valKey_toValues] at hveq
    have hsome : (ps.reverse.find? (fun p => keptRow p && (srcKey p == k'))).isSome := by
      rw [List.find?_isSome]
      exact ⟨q, List.mem_reverse.mpr hq, by simp [hkq, hveq]⟩
    rw [ProductRepository.lastKept] at hk'
    rw [hk'] at hsome
    simp at hsome

/-- C2 witness: the batch-upsert theorem evaluated on a one-row table and a
batch holding one case/whitespace-variant row and one whitespace-sku row. -/
theorem c2_batch_upsert_spec_witness :
    ProductRepository.keysNodup prodTable0 ∧
    ProductRepository.lastKept batch0 "sku-1" = some batchRow0 ∧
    (∃ t' n, ProductRepository.batch_upsert 7 prodTable0 batch0 = Except.ok (t', n) ∧
      ProductRepository.countKey t' "sku-1" = 1) := by
  have h1 : ProductRepository.keysNodup prodTable0 := by
    simp [ProductRepository.keysNodup, prodTable0]
  have h2 : ProductRepository.lastKept batch0 "sku-1" = some batchRow0 := by decide
  refine ⟨h1, h2, ?_⟩
  obtain ⟨t', n, heq, -, hcount, -, -⟩ :=
    c2_batch_upsert_spec 7 prodTable0 batch0 "sku-1" batchRow0 h1 h2
  exact ⟨t', n, heq, hcount⟩

/-- C9 counterexample: a non-empty batch whose single row has a
whitespace-only SKU does not return 0; it slips past the emptiness guard,
deduplicates to an empty values list, and the statement execution errors. -/
theorem c9_counterexample :
    ProductRepository.batch_upsert 0 [] [wsRow0]
        = Except.error ProductRepository.UpsertError.emptyValues ∧
    pyStrip wsRow0.sku = "" := by
  constructor
  · rfl
  · decide

/-- C9 (amended): only the empty batch short-circuits to 0 with the table
untouched; a non-empty batch in which every row has an empty or
whitespace-only SKU passes the `if not products` guard, deduplicates to zero
source rows, and reaches the statement execution with an empty values list,
which errors. -/
theorem c9_batch_upsert_degenerate (now : Nat) (t : List ProductRow)
    (ps : List ProductCreate) :
    (ps = [] → ProductRepository.batch_upsert now t ps = Except.ok (t, 0)) ∧
    (ps ≠ [] → (∀ p ∈ ps, ProductRepository.keptRow p = false) →
      ProductRepository.batch_upsert now t ps
        = Except.error ProductRepository.UpsertError.emptyValues) := by
  constructor
  · rintro rfl
    rfl
  · intro hne hall
    have h1 : ps.isEmpty = false := by
      cases ps
      · exact absurd rfl hne
      · rfl
    have h2 : ProductRepository.dedupeBatch ps = [] :=
      ProductRepository.dedupeBatch_eq_nil ps hall
    simp [ProductRepository.batch_upsert, h1, h2]

/-- C9 witness: the degenerate-batch theorem evaluated at the empty batch and
at a concrete all-whitespace batch. -/
theorem c9_batch_upsert_degenerate_witness :
    ProductRepository.batch_upsert 5 prodTable0 [] = Except.ok (prodTable0, 0) ∧
    ProductRepository.batch_upsert 5 prodTable0 [wsRow0, wsRow0]
        = Except.error ProductRepository.UpsertError.emptyValues :=
  ⟨(c9_batch_upsert_degenerate 5 prodTable0 []).1 rfl,
   (c9_batch_upsert_degenerate 5 prodTable0 [wsRow0, wsRow0]).2 (by decide) (by decide)⟩

/-- C3: failure semantics of the ingest worker's exception handler. While
retry attempts remain (`retries < max_retries`), no database write to
`failed` happens, the temp file is kept, and the exception is re-raised for
the broker to re-deliver. On the attempt that exhausts the budget, the job
is set to `failed` with the error description `"<kind>: <detail>"`, a final
progress snapshot with status `"failed"` is published, an `import.failed`
event is fanned out, the input file is deleted, and the handler re-raises. -/
theorem c3_failure_semantics (retries maxR : Nat) (ekind edetail : String)
    (processed : Option Nat) :
    (retries < maxR →
      (∀ pr em, Ev.db ImportStatus.failed pr em
          ∉ ImportTasks.exceptBranch retries maxR ekind edetail processed) ∧
      Ev.reraise ∈ ImportTasks.exceptBranch retries maxR ekind edetail processed ∧
      Ev.delFile ∉ ImportTasks.exceptBranch retries maxR ekind edetail processed) ∧
    (maxR ≤ retries →
      Ev.db ImportStatus.failed Option.none (some (ekind ++ ": " ++ edetail))
          ∈ ImportTasks.exceptBranch retries maxR ekind edetail processed ∧
      Ev.pub "failed" (processed.getD 0) (some (ekind ++ ": " ++ edetail)) Option.none
          ∈ ImportTasks.exceptBranch retries maxR ekind edetail processed ∧
      Ev.hook "import.failed" (processed.getD 0)
          ∈ ImportTasks.exceptBranch retries maxR ekind edetail processed ∧
      Ev.delFile ∈ ImportTasks.exceptBranch retries maxR ekind edetail processed ∧
      Ev.reraise ∈ ImportTasks.exceptBranch retries maxR ekind edetail processed) := by
  constructor
  · intro hlt
    have h : ¬ maxR ≤ retries := by omega
    refine ⟨?_, ?_, ?_⟩
    · intro pr em
      simp [ImportTasks.exceptBranch, h]
    · simp [ImportTasks.exceptBranch, h]
    · simp [ImportTasks.exceptBranch, h]
  · intro hge
    refine ⟨?_, ?_, ?_, ?_, ?_⟩ <;> simp [ImportTasks.exceptBranch, hge]

/-- C3 witness: the failure semantics evaluated at a concrete transient
attempt (`retries = 1 < 3`) and at the exhausting attempt (`retries = 3`). -/
theorem c3_failure_semantics_witness :
    (Ev.reraise ∈ ImportTasks.exceptBranch 1 3 "ValueError" "bad row" (some 7) ∧
      Ev.delFile ∉ ImportTasks.exceptBranch 1 3 "ValueError" "bad row" (some 7)) ∧
    (Ev.db ImportStatus.failed Option.none (some ("ValueError" ++ ": " ++ "bad row"))
        ∈ ImportTasks.exceptBranch 3 3 "ValueError" "bad row" (some 7) ∧
      Ev.delFile ∈ ImportTasks.exceptBranch 3 3 "ValueError" "bad row" (some 7)) :=
  ⟨⟨((c3_failure_semantics 1 3 "ValueError" "bad row" (some 7)).1 (by omega)).2.1,
    ((c3_failure_semantics 1 3 "ValueError" "bad row" (some 7)).1 (by omega)).2.2⟩,
   ⟨((c3_failure_semantics 3 3 "ValueError" "bad row" (some 7)).2 (by omega)).1,
    ((c3_failure_semantics 3 3 "ValueError" "bad row" (some 7)).2 (by omega)).2.2.2.1⟩⟩

theorem hget_hset (h : List (String × String)) (k v : String) :
    hget (hset h k v) k = some v := by
  induction h with
  | nil => simp [hset, hget, List.find?]
  | cons kv h ih =>
    by_cases hk : kv.1 = k
    · have h1 : (kv.1 == k) = true := beq_iff_eq.mpr hk
      have hany : ((kv :: h).any fun kv => kv.1 == k) = true := by
        simp [List.any_cons, h1]
      simp only [hset, hany, if_true, List.map_cons, h1, if_true]
      simp [hget, List.find?]
    · have h1 : (kv.1 == k) = false := beq_eq_false_iff_ne.mpr hk
      by_cases hany : h.any (fun kv => kv.1 == k) = true
      · have hany2 : ((kv :: h).any fun kv => kv.1 == k) = true := by
          simp [List.any_cons, hany]
        simp only [hset, hany2, if_true, List.map_cons, h1, Bool.false_eq_true, if_false]
        have ih2 := ih
        simp only [hset, hany, if_true] at ih2
        simp only [hget, List.find?, h1] at ih2 ⊢
        exact ih2
      · have hany2 : ((kv :: h).any fun kv => kv.1 == k) = false := by
          simp only [List.any_cons, h1, Bool.false_or, Bool.not_eq_true] at *
          simpa using hany
        simp only [hset, hany2, Bool.false_eq_true, if_false, List.cons_append]
        have ih2 := ih
        simp only [hset, Bool.not_eq_true] at ih2
        simp only [hany, Bool.false_eq_true, if_false] at ih2
        simp only [hget, List.find?, h1] at ih2 ⊢
        exact ih2

theorem charDigit_digitChar (n : Nat) (h : n < 10) :
    charDigit (Nat.digitChar n) = some n := by
  interval_cases n <;> decide

theorem foldDigits_go (fuel : Nat) : ∀ (n a : Nat), n < fuel →
    (natDigitsGo fuel n).foldl
        (fun acc c => match acc, charDigit c with
          | some m, some d => some (m * 10 + d)
          | _, _ => Option.none) (some a)
      = some (a * 10 ^ (natDigitsGo fuel n).length + n) := by
  induction fuel with
  | zero => intro n a h; omega
  | succ fuel ih =>
    intro n a h
    by_cases h10 : n < 10
    · simp only [natDigitsGo, h10, if_true, List.foldl_cons, List.foldl_nil,
        charDigit_digitChar n h10, List.length_cons, List.length_nil]
      simp [pow_one]
    · have hdivlt : n / 10 < fuel := by
        have := Nat.div_lt_self (by omega : 0 < n) (by omega : 1 < 10)
        omega
      simp only [natDigitsGo, h10, if_false, List.foldl_append, List.foldl_cons,
        List.foldl_nil, List.length_append, List.length_cons, List.length_nil]
      rw [ih (n / 10) a hdivlt]
      rw [charDigit_digitChar (n % 10) (Nat.mod_lt n (by omega))]
      show some ((a * 10 ^ (natDigitsGo fuel (n / 10)).length + n / 10) * 10 + n % 10)
        = some (a * 10 ^ ((natDigitsGo fuel (n / 10)).length + (0 + 1)) + n)
      refine congrArg some ?_
      generalize (natDigitsGo fuel (n / 10)).length = L
      conv_rhs => rw [← Nat.div_add_mod' n 10]
      ring

theorem natDigitsGo_ne_nil (fuel n : Nat) (h : n < fuel) :
    natDigitsGo fuel n ≠ [] := by
  cases fuel with
  | zero => omega
  | succ fuel =>
    by_cases h10 : n < 10 <;> simp [natDigitsGo, h10]

theorem natDigitsGo_digits (fuel : Nat) : ∀ n, n < fuel →
    ∀ c ∈ natDigitsGo fuel n, (charDigit c).isSome := by
  induction fuel with
  | zero => intro n h; omega
  | succ fuel ih =>
    intro n h c hc
    by_cases h10 : n < 10
    · simp only [natDigitsGo, h10, if_true, List.mem_singleton] at hc
      rw [hc, charDigit_digitChar n h10]
      rfl
    · simp only [natDigitsGo, h10, if_false, List.mem_append, List.mem_singleton] at hc
      rcases hc with hc | hc
      · have hdivlt : n / 10 < fuel := by
          have := Nat.div_lt_self (by omega : 0 < n) (by omega : 1 < 10)
          omega
        exact ih (n / 10) hdivlt c hc
      · rw [hc, charDigit_digitChar (n % 10) (Nat.mod_lt n (by omega))]
        rfl

theorem parseNat_natToDigits (n : Nat) :
    parseNatChars (natToDigits n) = some n := by
  unfold parseNatChars natToDigits
  have hne : natDigitsGo (n + 1) n ≠ [] := natDigitsGo_ne_nil (n + 1) n (Nat.lt_succ_self n)
  rw [if_neg (by simpa [List.isEmpty_iff] using hne)]
  rw [foldDigits_go (n + 1) n 0 (Nat.lt_succ_self n)]
  simp

theorem parseInt_intToChars (i : Int) :
    parseIntChars (intToChars i) = some i := by
  cases i with
  | ofNat n =>
    show parseIntChars (natToDigits n) = some (Int.ofNat n)
    unfold parseIntChars
    split
    · next rest heq =>
      exfalso
      have hmem : '-' ∈ natDigitsGo (n + 1) n := by
        rw [show natDigitsGo (n + 1) n = natToDigits n from rfl, heq]
        exact List.mem_cons_self _ _
      have := natDigitsGo_digits (n + 1) n (Nat.lt_succ_self n) '-' hmem
      simp [charDigit] at this
    · rw [parseNat_natToDigits n]
      rfl
  | negSucc n =>
    show (parseNatChars (natToDigits (n + 1))).map (fun m => -(m : Int))
      = some (Int.negSucc n)
    rw [parseNat_natToDigits (n + 1)]
    simp [Int.negSucc_eq]

theorem jsonLoads_intChars (i : Int) :
    jsonLoads (String.mk (intToChars i)) = some (PyVal.int i) := by
  unfold jsonLoads
  have hp : parseIntChars (String.mk (intToChars i)).data = some i :=
    parseInt_intToChars i
  rw [hp]

/-- C4 counterexample: the ingest worker's tracker put is a Python `str()`,
not a JSON encoding — a boolean written through it reads back as the raw
string "True", not as a boolean. -/
theorem c4_counterexample :
    ProgressManager.getField
        (ImportTasks.trackerPutField [] "status" (PyVal.bool true)) "status"
      = some (PyVal.str "True") ∧
    ProgressManager.getField
        (ImportTasks.trackerPutField [] "status" (PyVal.bool true)) "status"
      ≠ some (PyVal.bool true) := by
  decide

/-- C4 (amended): the progress store itself (`ProgressManager.set_progress` /
`get_progress`) JSON-encodes on put and JSON-decodes on get with a raw-string
fallback, so numbers, booleans and null round-trip through it; but the ingest
worker's `ProgressTracker.update` serializes each field with `str()` instead,
under which integers still round-trip (their decimal form is valid JSON)
while booleans and `None` come back as the strings "True"/"False"/"None". -/
theorem c4_progress_roundtrip (h : List (String × String)) (k : String)
    (v : PyVal) (hv : ∀ s, v ≠ PyVal.str s) :
    ProgressManager.getField (ProgressManager.putField h k v) k = some v ∧
    (∀ i : Int, ProgressManager.getField
        (ImportTasks.trackerPutField h k (PyVal.int i)) k = some (PyVal.int i)) ∧
    (∀ b : Bool, ProgressManager.getField
        (ImportTasks.trackerPutField h k (PyVal.bool b)) k
      = some (PyVal.str (if b then "True" else "False"))) ∧
    ProgressManager.getField (ImportTasks.trackerPutField h k PyVal.null) k
      = some (PyVal.str "None") := by
  refine ⟨?_, ?_, ?_, ?_⟩
  · show (hget (hset h k (ProgressManager.encode_value v)) k).map
        ProgressManager.decode_value = some v
    rw [hget_hset]
    show some (ProgressManager.decode_value (ProgressManager.encode_value v)) = some v
    cases v with
    | int i =>
      show some (ProgressManager.decode_value (String.mk (intToChars i))) = _
      unfold ProgressManager.decode_value
      rw [jsonLoads_intChars]
      rfl
    | bool b => cases b <;> decide
    | null => decide
    | str s => exact absurd rfl (hv s)
  · intro i
    show (hget (hset h k (pyStr (PyVal.int i))) k).map
        ProgressManager.decode_value = some (PyVal.int i)
    rw [hget_hset]
    show some (ProgressManager.decode_value (String.mk (intToChars i))) = _
    unfold ProgressManager.decode_value
    rw [jsonLoads_intChars]
    rfl
  · intro b
    show (hget (hset h k (pyStr (PyVal.bool b))) k).map
        ProgressManager.decode_value = _
    rw [hget_hset]
    cases b <;> decide
  · show (hget (hset h k (pyStr PyVal.null)) k).map
        ProgressManager.decode_value = _
    rw [hget_hset]
    decide

/-- C4 witness: the round-trip theorem evaluated on an integer field written
through the store and through the worker tracker. -/
theorem c4_progress_roundtrip_witness :
    ProgressManager.getField
        (ProgressManager.putField [] "total_rows" (PyVal.int 42)) "total_rows"
      = some (PyVal.int 42) ∧
    ProgressManager.getField
        (ImportTasks.trackerPutField [] "processed_rows" (PyVal.int (-3)))
        "processed_rows"
      = some (PyVal.int (-3)) :=
  ⟨(c4_progress_roundtrip [] "total_rows" (PyVal.int 42)
      (fun _ hs => PyVal.noConfusion hs)).1,
   (c4_progress_roundtrip [] "processed_rows" (PyVal.int 0)
      (fun _ hs => PyVal.noConfusion hs)).2.1 (-3)⟩

theorem pyRound2_zero : pyRound2 0 = 0 := by
  norm_num [pyRound2, roundHalfEven]

theorem roundHalfEven_nonneg (y : ℚ) (h : 0 ≤ y) : 0 ≤ roundHalfEven y := by
  have hfl : 0 ≤ ⌊y⌋ := Int.floor_nonneg.mpr h
  unfold roundHalfEven
  split_ifs <;> omega

theorem roundHalfEven_le_of_le (y : ℚ) (M : Int) (h : y ≤ (M : ℚ)) :
    roundHalfEven y ≤ M := by
  have hfl : ⌊y⌋ ≤ M := by
    have := Int.floor_le_floor h
    simpa using this
  unfold roundHalfEven
  split_ifs with h1 h2 h3
  · exact hfl
  all_goals {
    have hr : (1 : ℚ) / 2 ≤ y - (⌊y⌋ : ℚ) := by linarith [h1]
    have hlt : (⌊y⌋ : ℚ) < (M : ℚ) := by linarith
    have : ⌊y⌋ < M := by exact_mod_cast hlt
    omega }

theorem pyRound2_bounds (x : ℚ) (h0 : 0 ≤ x) (h1 : x ≤ 100) :
    0 ≤ pyRound2 x ∧ pyRound2 x ≤ 100 := by
  have hy0 : 0 ≤ x * 100 := by positivity
  have hy1 : x * 100 ≤ ((10000 : Int) : ℚ) := by push_cast; linarith
  have hl := roundHalfEven_nonneg (x * 100) hy0
  have hu := roundHalfEven_le_of_le (x * 100) 10000 hy1
  constructor
  · unfold pyRound2
    have : (0 : ℚ) ≤ (roundHalfEven (x * 100) : ℚ) := by exact_mod_cast hl
    positivity
  · unfold pyRound2
    rw [div_le_iff₀ (by norm_num : (0 : ℚ) < 100)]
    have : ((roundHalfEven (x * 100) : ℚ)) ≤ 10000 := by exact_mod_cast hu
    linarith

/-- C7 counterexample: with an unknown or zero total, the emitted `progress`
field is the number 0, not null. -/
theorem c7_counterexample :
    ImportTasks.trackerProgress 5 0 = some 0 ∧
    ImportTasks.trackerProgress 5 0 ≠ Option.none := by
  have h : ImportTasks.trackerProgress 5 0 = some 0 := by
    unfold ImportTasks.trackerProgress
    rw [if_neg (lt_irrefl 0), pyRound2_zero]
  exact ⟨h, by rw [h]; simp⟩

/-- C7 (amended): when the total is positive, the emitted `progress` equals
`processed / total * 100` rounded to two decimals (a value in [0, 100]
whenever `processed ≤ total`); when the total is unknown or zero, the
emitted value is the number 0 — never null. The bulk-delete tracker computes
the identical formula. -/
theorem c7_progress_formula (p t : Nat) :
    (0 < t → ImportTasks.trackerProgress p t
        = some (pyRound2 ((p : ℚ) / (t : ℚ) * 100))) ∧
    (t = 0 → ImportTasks.trackerProgress p t = some 0) ∧
    (∀ q : ℚ, p ≤ t → ImportTasks.trackerProgress p t = some q →
      0 ≤ q ∧ q ≤ 100) ∧
    BulkDeleteTasks.trackerProgress p t = ImportTasks.trackerProgress p t := by
  refine ⟨?_, ?_, ?_, rfl⟩
  · intro ht
    unfold ImportTasks.trackerProgress
    rw [if_pos ht]
  · rintro rfl
    unfold ImportTasks.trackerProgress
    rw [if_neg (lt_irrefl 0), pyRound2_zero]
  · intro q hpt hq
    unfold ImportTasks.trackerProgress at hq
    by_cases ht : 0 < t
    · rw [if_pos ht] at hq
      have htq : (0 : ℚ) < (t : ℚ) := by exact_mod_cast ht
      have hptq : (p : ℚ) ≤ (t : ℚ) := by exact_mod_cast hpt
      have hx0 : 0 ≤ (p : ℚ) / (t : ℚ) * 100 := by positivity
      have hx1 : (p : ℚ) / (t : ℚ) * 100 ≤ 100 := by
        have hdiv : (p : ℚ) / (t : ℚ) ≤ 1 := by
          rw [div_le_one htq]; exact hptq
        linarith
      obtain ⟨hl, hu⟩ := pyRound2_bounds _ hx0 hx1
      injection hq with hq2
      rw [← hq2]
      exact ⟨hl, hu⟩
    · rw [if_neg ht, pyRound2_zero] at hq
      injection hq with hq2
      rw [← hq2]
      norm_num

/-- C7 witness: the progress formula evaluated at 1 of 4 rows and at an
unknown (zero) total. -/
theorem c7_progress_formula_witness :
    ImportTasks.trackerProgress 1 4
      = some (pyRound2 (((1 : Nat) : ℚ) / ((4 : Nat) : ℚ) * 100)) ∧
    ImportTasks.trackerProgress 3 0 = some 0 :=
  ⟨(c7_progress_formula 1 4).1 (by norm_num),
   (c7_progress_formula 3 0).2.1 rfl⟩

theorem workerActive_some (v : String) :
    ImportTasks.workerActive (some v)
      = (if v != "" then
          (if ImportTasks.falseLiterals.contains (pyLower (pyStrip v)) then false
           else true)
        else true) := rfl

theorem trueValues_not_false (l : String)
    (h : CSVValidator.trueValues.contains l = true) :
    CSVValidator.falseValues.contains l = false := by
  have hmem : l ∈ CSVValidator.trueValues := by
    simpa using h
  simp only [CSVValidator.trueValues, List.mem_cons, List.mem_singleton,
    List.not_mem_nil, or_false] at hmem
  rcases hmem with rfl | rfl | rfl | rfl | rfl <;> decide

theorem string_eq_empty_of_length (s : String) (h : s.length = 0) : s = "" := by
  cases s with
  | mk d =>
    have hd : d = [] := List.length_eq_zero.mp h
    rw [hd]

/-- C5 counterexample: the worker coerces the non-empty, non-boolean value
"maybe" silently to `active = true`, while the validator's `_parse_bool`
rejects it. -/
theorem c5_counterexample :
    ImportTasks.parse_csv_row
        { sku := "s", name := "n", description := Option.none,
          active := some "maybe" }
      = some { sku := "s", name := "n", description := Option.none,
               active := true } ∧
    CSVValidator.parse_bool "maybe" = Option.none := by
  decide

/-- C5 (amended): the worker's coercion agrees with the validator only
one-sidedly. It yields `false` exactly for a present, non-empty cell whose
stripped lowercase form is in the false set {false,no,0,f,n}; it agrees with
`_parse_bool` wherever that parse succeeds; but for every other non-empty
value — including values outside the validator's true set — `_parse_bool`
raises while the worker silently coerces to `true`. `_parse_csv_row`
produces a candidate only for rows surviving both its falsy guard and the
pydantic constraints on sku/name, every candidate it produces carries
exactly this coercion, and a row whose sku strips to empty yields no
candidate at all. -/
theorem c5_active_coercion (v : String) (row : CsvRow) :
    (ImportTasks.workerActive (some v) = false ↔
      (v ≠ "" ∧ ImportTasks.falseLiterals.contains (pyLower (pyStrip v)) = true)) ∧
    (CSVValidator.parse_bool v = some false →
      ImportTasks.workerActive (some v) = false) ∧
    (CSVValidator.parse_bool v = some true →
      ImportTasks.workerActive (some v) = true) ∧
    (v ≠ "" → CSVValidator.parse_bool v = Option.none →
      ImportTasks.workerActive (some v) = true) ∧
    (∀ p, ImportTasks.parse_csv_row row = some p →
      p.active = ImportTasks.workerActive row.active) ∧
    ((pyStrip row.sku).length = 0 →
      ImportTasks.parse_csv_row row = Option.none) := by
  refine ⟨?_, ?_, ?_, ?_, ?_, ?_⟩
  · rw [workerActive_some]
    by_cases hv : v = ""
    · subst hv
      simp
    · have hvb : (v != "") = true := bne_iff_ne.mpr hv
      rw [if_pos hvb]
      by_cases hc : ImportTasks.falseLiterals.contains (pyLower (pyStrip v)) = true
      · rw [if_pos hc]
        exact iff_of_true rfl ⟨hv, hc⟩
      · rw [if_neg hc]
        exact iff_of_false (by simp) (fun hh => hc hh.2)
  · intro hb
    unfold CSVValidator.parse_bool at hb
    split_ifs at hb with h1 h2
    · exact absurd hb (by simp)
    · have h2b : ImportTasks.falseLiterals.contains (pyLower (pyStrip v)) = true := h2
      have hv : v ≠ "" := by
        intro hveq
        rw [hveq] at h2
        exact absurd h2 (by decide)
      rw [workerActive_some, if_pos (bne_iff_ne.mpr hv), if_pos h2b]
  · intro hb
    unfold CSVValidator.parse_bool at hb
    split_ifs at hb with h1 h2
    · have h4 : ImportTasks.falseLiterals.contains (pyLower (pyStrip v)) = false :=
        trueValues_not_false _ h1
      rw [workerActive_some]
      by_cases hv : v = ""
      · subst hv
        simp
      · rw [if_pos (bne_iff_ne.mpr hv), if_neg (by rw [h4]; simp)]
    · exact absurd hb (by simp)
  · intro hv hb
    unfold CSVValidator.parse_bool at hb
    split_ifs at hb with h1 h2
    have h2b : ¬ (ImportTasks.falseLiterals.contains (pyLower (pyStrip v)) = true) := h2
    rw [workerActive_some, if_pos (bne_iff_ne.mpr hv), if_neg h2b]
  · intro p hp
    unfold ImportTasks.parse_csv_row at hp
    by_cases hguard : (row.sku == "" || row.name == "") = true
    · rw [if_pos hguard] at hp
      cases hp
    · rw [if_neg hguard] at hp
      unfold ImportTasks.productCreateOf at hp
      split at hp
      · cases hp
      · injection hp with hp2
        rw [← hp2]
  · intro hlen
    have hempty : pyStrip row.sku = "" := string_eq_empty_of_length _ hlen
    unfold ImportTasks.parse_csv_row
    by_cases hguard : (row.sku == "" || row.name == "") = true
    · rw [if_pos hguard]
    · rw [if_neg hguard]
      unfold ImportTasks.productCreateOf
      rw [if_pos (Or.inl (by rw [hempty]; rfl))]

/-- C5 witness: the coercion theorem evaluated at a value the validator
rejects ("Maybe"), at a well-formed row (whose candidate carries the coerced
flag), and at a whitespace-only sku (which yields no candidate). -/
theorem c5_active_coercion_witness :
    ImportTasks.workerActive (some "Maybe") = true ∧
    ProductCreate.active
        { sku := "a", name := "b", description := Option.none, active := true }
      = ImportTasks.workerActive Option.none ∧
    ImportTasks.parse_csv_row
        { sku := " ", name := "b", description := Option.none,
          active := Option.none }
      = Option.none :=
  ⟨(c5_active_coercion "Maybe"
      { sku := "a", name := "b", description := Option.none,
        active := Option.none }).2.2.2.1 (by decide) (by decide),
   (c5_active_coercion "x"
      { sku := "a", name := "b", description := Option.none,
        active := Option.none }).2.2.2.2.1
      { sku := "a", name := "b", description := Option.none, active := true }
      (by decide),
   (c5_active_coercion "x"
      { sku := " ", name := "b", description := Option.none,
        active := Option.none }).2.2.2.2.2 (by decide)⟩

theorem sampleLoop_spec (b : Nat) : ∀ (rn : Nat) (errors : List String)
    (rows : List CsvRow),
    rn ≤ (CSVValidator.sampleLoop b rn errors rows).2.1 ∧
    (CSVValidator.sampleLoop b rn errors rows).2.1 - rn ≤ b ∧
    (CSVValidator.sampleLoop b rn errors rows).2.1 - rn ≤ rows.length ∧
    (CSVValidator.sampleLoop b rn errors rows).2.2
      = rows.drop ((CSVValidator.sampleLoop b rn errors rows).2.1 - rn) ∧
    ((CSVValidator.sampleLoop b rn errors rows).2.1 - rn < b →
      (CSVValidator.sampleLoop b rn errors rows).2.2 ≠ [] →
      ∃ pre, (CSVValidator.sampleLoop b rn errors rows).1
        = pre ++ [CSVValidator.truncationMarker] ∧ 10 ≤ pre.length) := by
  induction b with
  | zero =>
    intro rn errors rows
    simp [CSVValidator.sampleLoop]
  | succ b ih =>
    intro rn errors rows
    cases rows with
    | nil =>
      refine ⟨le_refl rn, ?_, ?_, ?_, ?_⟩ <;>
        simp [CSVValidator.sampleLoop]
    | cons r rest =>
      cases hro : CSVValidator.rowOutcome r with
      | ok =>
        have hstep : CSVValidator.sampleLoop (b + 1) rn errors (r :: rest)
            = CSVValidator.sampleLoop b (rn + 1) errors rest := by
          simp [CSVValidator.sampleLoop, hro]
        rw [hstep]
        obtain ⟨h1, h2, h3, h4, h5⟩ := ih (rn + 1) errors rest
        refine ⟨by omega, by omega, ?_, ?_, ?_⟩
        · rw [List.length_cons]; omega
        · have hd : (CSVValidator.sampleLoop b (rn + 1) errors rest).2.1 - rn
              = ((CSVValidator.sampleLoop b (rn + 1) errors rest).2.1 - (rn + 1)) + 1 := by
            omega
          rw [hd, List.drop_succ_cons]
          exact h4
        · intro hlt hne
          exact h5 (by omega) hne
      | unexpectedError m =>
        have hstep : CSVValidator.sampleLoop (b + 1) rn errors (r :: rest)
            = CSVValidator.sampleLoop b (rn + 1)
                (errors ++ ["Row " ++ toString (rn + 1) ++ ": " ++ m]) rest := by
          simp [CSVValidator.sampleLoop, hro]
        rw [hstep]
        obtain ⟨h1, h2, h3, h4, h5⟩ :=
          ih (rn + 1) (errors ++ ["Row " ++ toString (rn + 1) ++ ": " ++ m]) rest
        refine ⟨by omega, by omega, ?_, ?_, ?_⟩
        · rw [List.length_cons]; omega
        · have hd : (CSVValidator.sampleLoop b (rn + 1)
                (errors ++ ["Row " ++ toString (rn + 1) ++ ": " ++ m]) rest).2.1 - rn
              = ((CSVValidator.sampleLoop b (rn + 1)
                (errors ++ ["Row " ++ toString (rn + 1) ++ ": " ++ m]) rest).2.1 - (rn + 1)) + 1 := by
            omega
          rw [hd, List.drop_succ_cons]
          exact h4
        · intro hlt hne
          exact h5 (by omega) hne
      | fieldErrors msgs =>
        by_cases hhalt : 10 ≤ (errors
            ++ msgs.map (fun m => "Row " ++ toString (rn + 1) ++ ", " ++ m)).length
        · have hstep : CSVValidator.sampleLoop (b + 1) rn errors (r :: rest)
              = ((errors ++ msgs.map (fun m => "Row " ++ toString (rn + 1) ++ ", " ++ m))
                  ++ [CSVValidator.truncationMarker], rn + 1, rest) := by
            simp only [CSVValidator.sampleLoop, hro]
            rw [if_pos hhalt]
          rw [hstep]
          refine ⟨?_, ?_, ?_, ?_, ?_⟩
          · show rn ≤ rn + 1
            omega
          · show rn + 1 - rn ≤ b + 1
            omega
          · show rn + 1 - rn ≤ (r :: rest).length
            rw [List.length_cons]
            omega
          · show rest = (r :: rest).drop (rn + 1 - rn)
            have hd : rn + 1 - rn = 1 := by omega
            rw [hd]
            rfl
          · intro _ _
            exact ⟨errors ++ msgs.map (fun m => "Row " ++ toString (rn + 1) ++ ", " ++ m),
              rfl, hhalt⟩
        · have hstep : CSVValidator.sampleLoop (b + 1) rn errors (r :: rest)
              = CSVValidator.sampleLoop b (rn + 1)
                  (errors ++ msgs.map (fun m => "Row " ++ toString (rn + 1) ++ ", " ++ m))
                  rest := by
            simp only [CSVValidator.sampleLoop, hro]
            rw [if_neg hhalt]
          rw [hstep]
          obtain ⟨h1, h2, h3, h4, h5⟩ := ih (rn + 1)
            (errors ++ msgs.map (fun m => "Row " ++ toString (rn + 1) ++ ", " ++ m)) rest
          refine ⟨by omega, by omega, ?_, ?_, ?_⟩
          · rw [List.length_cons]; omega
          · have hd : (CSVValidator.sampleLoop b (rn + 1)
                  (errors ++ msgs.map (fun m => "Row " ++ toString (rn + 1) ++ ", " ++ m))
                  rest).2.1 - rn
                = ((CSVValidator.sampleLoop b (rn + 1)
                  (errors ++ msgs.map (fun m => "Row " ++ toString (rn + 1) ++ ", " ++ m))
                  rest).2.1 - (rn + 1)) + 1 := by
              omega
            rw [hd, List.drop_succ_cons]
            exact h4
          · intro hlt hne
            exact h5 (by omega) hne

/-- C8 counterexample: eleven rows whose `active` cell is uncoercible. Each
lands in the validator's generic exception branch, which appends its error
without the halting check: eleven row-level errors accumulate, the eleventh
row is still schema-checked, and no truncation marker is appended — the
claim's halt-at-ten with a final marker does not happen. -/
theorem c8_counterexample :
    (CSVValidator.validate_sample_rows rows11).1.length = 11 ∧
    CSVValidator.truncationMarker ∉ (CSVValidator.validate_sample_rows rows11).1 ∧
    (CSVValidator.validate_sample_rows rows11).2.1 = 11 := by
  decide

/-- C8 (amended): the validator schema-checks at most the first 100 data
rows, consuming exactly the checked prefix; after a row whose pydantic
validation pushes the cumulative error count to 10 or more, it appends the
truncation marker as the final message and stops checking (so an early stop
implies the marker with at least 10 prior errors); rows whose failure goes
through the generic exception branch (e.g. an uncoercible `active`) are
counted without triggering that halt; and the returned `total_rows` is
always the full data-row count. -/
theorem c8_validator_sampling (rows : List CsvRow) :
    (CSVValidator.validate_sample_rows rows).2.1 ≤ CSVValidator.sampleSize ∧
    (CSVValidator.validate_sample_rows rows).2.1 ≤ rows.length ∧
    (CSVValidator.validate_sample_rows rows).2.2
      = rows.drop (CSVValidator.validate_sample_rows rows).2.1 ∧
    CSVValidator.totalRowsOf rows = rows.length ∧
    ((CSVValidator.validate_sample_rows rows).2.1 < CSVValidator.sampleSize →
      (CSVValidator.validate_sample_rows rows).2.2 ≠ [] →
      ∃ pre, (CSVValidator.validate_sample_rows rows).1
        = pre ++ [CSVValidator.truncationMarker] ∧ 10 ≤ pre.length) := by
  obtain ⟨h1, h2, h3, h4, h5⟩ := sampleLoop_spec CSVValidator.sampleSize 0 [] rows
  simp only [Nat.sub_zero] at h2 h3 h4 h5
  refine ⟨h2, h3, h4, ?_, h5⟩
  show (CSVValidator.sampleLoop CSVValidator.sampleSize 0 [] rows).2.1
      + (CSVValidator.sampleLoop CSVValidator.sampleSize 0 [] rows).2.2.length
    = rows.length
  rw [h4, List.length_drop]
  omega

/-- C8 witness: the sampling theorem evaluated on six double-error rows
(halting at row five with the marker) — the total row count is still six. -/
theorem c8_validator_sampling_witness :
    CSVValidator.totalRowsOf rows6 = 6 ∧
    (∃ pre, (CSVValidator.validate_sample_rows rows6).1
      = pre ++ [CSVValidator.truncationMarker] ∧ 10 ≤ pre.length) := by
  refine ⟨?_, ?_⟩
  · have h := (c8_validator_sampling rows6).2.2.2.1
    simpa [rows6] using h
  · exact (c8_validator_sampling rows6).2.2.2.2 (by decide) (by decide)

/-- C6 counterexample: a bulk-delete run over an empty product table goes
from `queued` through `parsing` straight to `done`: no database write with
status `importing` ever happens, contradicting the claimed
queued → parsing → importing → done sequence. -/
theorem c6_counterexample :
    ((BulkDeleteTasks.bulkDeleteRun 1 emptyBulkWorld).1.all
        (fun e => ! isImportingDb e)) = true ∧
    (BulkDeleteTasks.bulkDeleteRun 1 emptyBulkWorld).2.job.status
      = ImportStatus.done ∧
    emptyBulkWorld.job.status = ImportStatus.queued := by
  decide

/-- C6 (amended): a bulk-delete job over an empty product table goes from
`queued` (its creation status) through `parsing` directly to `done` — the
`importing` phase is skipped — ending with `processed_rows = 0`, no error,
and a `product.bulk_deleted` fan-out whose deleted count is 0. -/
theorem c6_bulk_delete_empty (now : Nat) (job : ImportJob)
    (hkind : job.jobType = JobType.bulkDelete) :
    (BulkDeleteTasks.bulkDeleteRun now { job := job, products := [] }).1
      = [Ev.db ImportStatus.parsing Option.none Option.none,
         Ev.pub "preparing" 0 Option.none (some "counting"),
         Ev.db ImportStatus.done (some 0) Option.none,
         Ev.pub "done" 0 Option.none (some "completed"),
         Ev.hook "product.bulk_deleted" 0] ∧
    (BulkDeleteTasks.bulkDeleteRun now { job := job, products := [] }).2.job.status
      = ImportStatus.done ∧
    (BulkDeleteTasks.bulkDeleteRun now { job := job, products := [] }).2.job.processedRows
      = 0 ∧
    (BulkDeleteTasks.bulkDeleteRun now { job := job, products := [] }).2.job.errorMessage
      = job.errorMessage ∧
    Ev.hook "product.bulk_deleted" 0
      ∈ (BulkDeleteTasks.bulkDeleteRun now { job := job, products := [] }).1 ∧
    (∀ pr em, Ev.db ImportStatus.failed pr em
      ∉ (BulkDeleteTasks.bulkDeleteRun now { job := job, products := [] }).1) ∧
    (∀ pr em, Ev.db ImportStatus.importing pr em
      ∉ (BulkDeleteTasks.bulkDeleteRun now { job := job, products := [] }).1) := by
  have h1 : ¬ ((job.jobType != JobType.bulkDelete) = true) := by
    simp [hkind]
  have hrun : BulkDeleteTasks.bulkDeleteRun now { job := job, products := [] }
      = ([Ev.db ImportStatus.parsing Option.none Option.none,
          Ev.pub "preparing" 0 Option.none (some "counting"),
          Ev.db ImportStatus.done (some 0) Option.none,
          Ev.pub "done" 0 Option.none (some "completed"),
          Ev.hook "product.bulk_deleted" 0],
         { job := ImportRepository.update_status
             (ImportRepository.update_status job ImportStatus.parsing
               Option.none Option.none now)
             ImportStatus.done (some 0) Option.none now,
           products := [] }) := by
    unfold BulkDeleteTasks.bulkDeleteRun
    rw [if_neg h1]
    rfl
  rw [hrun]
  refine ⟨rfl, rfl, rfl, rfl, by simp, ?_, ?_⟩
  · intro pr em
    simp
  · intro pr em
    simp

/-- C6 witness: the empty-table theorem evaluated on a concrete queued
bulk-delete job. -/
theorem c6_bulk_delete_empty_witness :
    (BulkDeleteTasks.bulkDeleteRun 2 { job := bulkJob0, products := [] }).2.job.status
      = ImportStatus.done ∧
    Ev.hook "product.bulk_deleted" 0
      ∈ (BulkDeleteTasks.bulkDeleteRun 2 { job := bulkJob0, products := [] }).1 :=
  ⟨(c6_bulk_delete_empty 2 bulkJob0 rfl).2.1,
   (c6_bulk_delete_empty 2 bulkJob0 rfl).2.2.2.2.1⟩

end Acme
